import Mathlib

/-!
# ObbyScript engine (`src/obbyscript.c`): shallow embedding and verification

This file embeds, in Lean 4, the parts of the ObbyScript language engine
(`src/obbyscript.c` of the ObsidianIRC/UnrealIRCd-Modules repository) that the
specification's claims talk about, and proves or refutes each claim against
that embedding.

Conventions used throughout:
* C strings are modelled as `List Char` (character-by-character scanning code)
  or `String` (names and whole values); `NULL` char pointers become `Option`.
* C `int` values that the claims do not exercise near overflow are modelled as
  `Int` (arithmetic) or `Nat` (counters, sizes).
* Host objects (`Client *`, `Channel *`) are modelled by the only field the
  embedded code reads from them: their `name`.
* Functions are kept executable so that every theorem with a hypothesis can be
  instantiated on concrete inputs.
-/

namespace ObbyScript

/-! ## Character classification helpers (C `ctype.h` as used by the module) -/

/-- C `isspace` for the default locale: space, `\t`, `\n`, `\v`, `\f`, `\r`. -/
def isspace_c (c : Char) : Bool :=
  c = ' ' || c = '\t' || c = '\n' || c = '\x0b' || c = '\x0c' || c = '\r'

/-- C `isdigit`. -/
def isdigit_c (c : Char) : Bool :=
  '0' ≤ c && c ≤ '9'

/-- Numeric value of a digit character (`*p - '0'` in the C source). -/
def digitVal (c : Char) : Int :=
  (c.toNat : Int) - 48

/-- Decimal digits of a natural number, most significant first
(one digit minimum, as `snprintf("%d")` renders `0` as `"0"`). -/
def natToDigits (n : Nat) : List Char :=
  if h : n < 10 then [Char.ofNat (48 + n)]
  else natToDigits (n / 10) ++ [Char.ofNat (48 + n % 10)]
  termination_by n
  decreasing_by exact Nat.div_lt_self (by omega) (by norm_num)

/-- Decimal rendering of an `Int`, as C `snprintf("%d", i)` produces it. -/
def intToDecimal (i : Int) : List Char :=
  if i < 0 then '-' :: natToDigits i.natAbs else natToDigits i.natAbs

/-- Left-to-right accumulation of decimal digits, as C parsing loops do
(`acc = acc * 10 + (*p - '0')`). -/
def foldDigits (acc : Int) (ds : List Char) : Int :=
  ds.foldl (fun a c => a * 10 + digitVal c) acc

/-- C `atoi`: skip leading whitespace, optional sign, then digits; parsing
stops at the first non-digit and the rest of the string is ignored. -/
def c_atoi (s : List Char) : Int :=
  match s.dropWhile isspace_c with
  | [] => 0
  | c :: rest =>
    if c = '-' then - foldDigits 0 (rest.takeWhile isdigit_c)
    else if c = '+' then foldDigits 0 (rest.takeWhile isdigit_c)
    else foldDigits 0 ((c :: rest).takeWhile isdigit_c)

/-! Round-trip facts about decimal rendering and digit accumulation. -/

theorem digitChar_isdigit (d : Nat) (h : d < 10) : isdigit_c (Char.ofNat (48 + d)) = true := by
  interval_cases d <;> decide

theorem digitVal_ofNat (d : Nat) (h : d < 10) : digitVal (Char.ofNat (48 + d)) = (d : Int) := by
  interval_cases d <;> decide

theorem natToDigits_all_digits (n : Nat) : ∀ c ∈ natToDigits n, isdigit_c c = true := by
  induction n using Nat.strong_induction_on with
  | _ n ih =>
    rw [natToDigits]
    split
    · rename_i h
      intro c hc
      simp only [List.mem_singleton] at hc
      subst hc
      exact digitChar_isdigit n h
    · rename_i h
      intro c hc
      rcases List.mem_append.1 hc with h1 | h2
      · exact ih (n / 10) (Nat.div_lt_self (by omega) (by norm_num)) c h1
      · simp only [List.mem_singleton] at h2
        subst h2
        exact digitChar_isdigit _ (Nat.mod_lt _ (by norm_num))

theorem isdigit_not_isspace (c : Char) (h : isdigit_c c = true) : isspace_c c = false := by
  rcases Bool.eq_false_or_eq_true (isspace_c c) with ht | hf
  · exfalso
    simp only [isspace_c, Bool.or_eq_true, decide_eq_true_eq] at ht
    rcases ht with ((((h' | h') | h') | h') | h') | h' <;> subst h' <;> exact absurd h (by decide)
  · exact hf

theorem takeWhile_all (p : Char → Bool) :
    ∀ l : List Char, (∀ c ∈ l, p c = true) → l.takeWhile p = l
  | [], _ => rfl
  | c :: cs, h => by
    rw [List.takeWhile_cons, if_pos (h c (List.mem_cons_self c cs)),
      takeWhile_all p cs (fun x hx => h x (List.mem_cons_of_mem c hx))]

theorem foldDigits_append (acc : Int) (a b : List Char) :
    foldDigits acc (a ++ b) = foldDigits (foldDigits acc a) b := by
  simp [foldDigits, List.foldl_append]

theorem foldDigits_natToDigits (acc : Int) (n : Nat) :
    foldDigits acc (natToDigits n) = acc * 10 ^ (natToDigits n).length + n := by
  induction n using Nat.strong_induction_on generalizing acc with
  | _ n ih =>
    rw [natToDigits]
    split
    · rename_i h
      simp [foldDigits, digitVal_ofNat n h]
    · rename_i h
      rw [foldDigits_append]
      rw [ih (n / 10) (Nat.div_lt_self (by omega) (by norm_num))]
      have hm : n % 10 < 10 := Nat.mod_lt _ (by norm_num)
      simp only [foldDigits, List.foldl_cons, List.foldl_nil, List.length_append,
        List.length_singleton, digitVal_ofNat _ hm]
      rw [pow_succ]
      have hsplit : (10 : Int) * ((n / 10 : Nat) : Int) + ((n % 10 : Nat) : Int) = (n : Int) := by
        push_cast
        omega
      linear_combination hsplit

theorem foldDigits_zero_natToDigits (n : Nat) : foldDigits 0 (natToDigits n) = n := by
  rw [foldDigits_natToDigits]; ring

theorem natToDigits_ne_nil (n : Nat) : natToDigits n ≠ [] := by
  rw [natToDigits]
  split <;> simp

/-- `atoi` applied to the decimal rendering of a natural number gives it back. -/
theorem c_atoi_natToDigits (n : Nat) : c_atoi (natToDigits n) = n := by
  have hd := natToDigits_all_digits n
  have htake : (natToDigits n).takeWhile isdigit_c = natToDigits n := takeWhile_all _ _ hd
  unfold c_atoi
  cases hds : natToDigits n with
  | nil => exact absurd hds (natToDigits_ne_nil n)
  | cons c cs =>
    have hcd := hd c (by rw [hds]; exact List.mem_cons_self c cs)
    have hnospace : List.dropWhile isspace_c (c :: cs) = c :: cs := by
      rw [List.dropWhile_cons_of_neg]
      simp [isdigit_not_isspace c hcd]
    rw [hnospace]
    have hc1 : c ≠ '-' := by
      intro h; subst h; revert hcd; decide
    have hc2 : c ≠ '+' := by
      intro h; subst h; revert hcd; decide
    rw [hds] at htake
    simp only [if_neg hc1, if_neg hc2, htake]
    have := foldDigits_zero_natToDigits n
    rw [hds] at this
    exact this

/-! ## `evaluate_arithmetic` (src/obbyscript.c, lines 7223-7304)

The C function first runs `substitute_variables` on its argument and then
evaluates the resulting text with an integer-only scanner.  The scanner is
embedded here verbatim as `evaluate_arithmetic_core` (the post-substitution
phase; C `int` is modelled as `Int`, the claims do not exercise overflow):
a running `result`, the pending `current_num`, the pending `operator`
(initially `'+'`, or `'-'` for a leading minus) and a `first_number` flag.
Each operator character applies the pending operation; an invalid character
stops the scan; the pending operation is always applied once more at the end
(the C guard `current_num > 0 || operator != '\0'` is always true because
`operator` is always one of `+ - * /`).  Totality is by construction: the
scanner is a structurally recursive function over the character list. -/

/-- Scanner state of `evaluate_arithmetic`: `result`, `current_num`,
`operator`, `first_number`. -/
structure ArithState where
  result : Int
  current : Int
  op : Char
  first : Bool
  deriving Repr, DecidableEq

/-- One application of the pending operator (the C `switch (operator)`):
division by zero is skipped (`if (current_num != 0)`), leaving `result`
unchanged; C integer division truncates toward zero, i.e. `Int.div`. -/
def arith_step (result : Int) (op : Char) (m : Int) : Int :=
  if op = '+' then result + m
  else if op = '-' then result - m
  else if op = '*' then result * m
  else if op = '/' then (if m ≠ 0 then Int.tdiv result m else result)
  else result

/-- Apply the pending operation: the first number becomes the result
(negated under a leading `'-'`), later numbers fold into `result`. -/
def arith_apply (st : ArithState) : Int :=
  if st.first then (if st.op = '-' then - st.current else st.current)
  else arith_step st.result st.op st.current

/-- The scanning loop of `evaluate_arithmetic`: digits accumulate into
`current`, an operator character applies the pending operation, whitespace is
skipped, any other character ends the scan. -/
def arith_loop : List Char → ArithState → ArithState
  | [], st => st
  | c :: rest, st =>
    if isdigit_c c then
      arith_loop rest { st with current := st.current * 10 + digitVal c }
    else if c = '+' ∨ c = '-' ∨ c = '*' ∨ c = '/' then
      arith_loop rest { result := arith_apply st, current := 0, op := c, first := false }
    else if isspace_c c then arith_loop rest st
    else st

/-- Scan after the leading-whitespace skip: note a leading `'-'`, run the
loop, then apply the final pending operation. -/
def arith_start : List Char → Int
  | [] => arith_apply ⟨0, 0, '+', true⟩
  | c :: rest =>
    if c = '-' then arith_apply (arith_loop rest ⟨0, 0, '-', true⟩)
    else arith_apply (arith_loop (c :: rest) ⟨0, 0, '+', true⟩)

/-- `evaluate_arithmetic` after variable substitution: skip leading
whitespace, note a leading `'-'`, scan, then apply the final pending
operation. -/
def evaluate_arithmetic_core (s : List Char) : Int :=
  arith_start (s.dropWhile isspace_c)

/-- Text of the operator/numeral tail `op₁ n₁ op₂ n₂ …` of an arithmetic
expression (decimal numerals). -/
def renderOps : List (Char × Nat) → List Char
  | [] => []
  | p :: ps => p.1 :: (natToDigits p.2 ++ renderOps ps)

/-- Flat text of an arithmetic expression `first op₁ n₁ op₂ n₂ …` (no
whitespace, decimal numerals). -/
def renderArith (first : Int) (ops : List (Char × Nat)) : List Char :=
  intToDecimal first ++ renderOps ops

/-- The left-to-right fold the specification describes: no precedence, each
operator applied in textual order (with the code's division step). -/
def arith_fold (first : Int) (ops : List (Char × Nat)) : Int :=
  ops.foldl (fun acc p => arith_step acc p.1 p.2) first

theorem arith_loop_digits (ds : List Char) (hds : ∀ c ∈ ds, isdigit_c c = true) :
    ∀ (st : ArithState) (rest : List Char),
      arith_loop (ds ++ rest) st = arith_loop rest { st with current := foldDigits st.current ds } := by
  induction ds with
  | nil => intro st rest; simp [foldDigits]
  | cons c cs ih =>
    intro st rest
    have hc : isdigit_c c = true := hds c (List.mem_cons_self c cs)
    rw [List.cons_append, arith_loop, if_pos hc,
      ih (fun x hx => hds x (List.mem_cons_of_mem c hx))]
    rfl

theorem arith_loop_op (o : Char) (ho : o = '+' ∨ o = '-' ∨ o = '*' ∨ o = '/')
    (rest : List Char) (st : ArithState) :
    arith_loop (o :: rest) st
      = arith_loop rest ⟨arith_apply st, 0, o, false⟩ := by
  have hnd : isdigit_c o = false := by
    rcases ho with h | h | h | h <;> subst h <;> decide
  rw [arith_loop, if_neg (by simp [hnd]), if_pos ho]

theorem arith_loop_fold (ops : List (Char × Nat))
    (hops : ∀ p ∈ ops, p.1 = '+' ∨ p.1 = '-' ∨ p.1 = '*' ∨ p.1 = '/') :
    ∀ st : ArithState,
      arith_apply (arith_loop (renderOps ops) st)
        = ops.foldl (fun acc p => arith_step acc p.1 p.2) (arith_apply st) := by
  induction ops with
  | nil => intro st; rfl
  | cons p ps ih =>
    intro st
    have hp := hops p (List.mem_cons_self p ps)
    simp only [renderOps, List.foldl_cons]
    rw [arith_loop_op p.1 hp, arith_loop_digits _ (natToDigits_all_digits p.2),
      ih (fun q hq => hops q (List.mem_cons_of_mem p hq))]
    congr 1
    simp [arith_apply, foldDigits_zero_natToDigits]

theorem arith_start_neg (rest : List Char) :
    arith_start ('-' :: rest) = arith_apply (arith_loop rest ⟨0, 0, '-', true⟩) := by
  simp [arith_start]

theorem arith_start_other (c : Char) (rest : List Char) (h : ¬(c = '-')) :
    arith_start (c :: rest) = arith_apply (arith_loop (c :: rest) ⟨0, 0, '+', true⟩) := by
  simp [arith_start, h]

theorem arith_apply_first_neg (r m : Int) : arith_apply ⟨r, m, '-', true⟩ = -m := by
  simp [arith_apply]

theorem arith_apply_first_plus (r m : Int) : arith_apply ⟨r, m, '+', true⟩ = m := by
  simp [arith_apply]

/-- C8: `evaluate_arithmetic` is total on every input string (its embedding
`evaluate_arithmetic_core` is a structurally recursive total function); on
the text of an arithmetic expression `first op₁ n₁ op₂ n₂ …` whose operators
come from `+ - * /`, it computes the plain left-to-right fold of the
operations, with no operator precedence, and a division step whose right
operand is zero leaves the accumulated value unchanged (division by zero is
a no-op, never a fault). -/
theorem evaluate_arithmetic_is_left_fold (first : Int) (ops : List (Char × Nat))
    (hops : ∀ p ∈ ops, p.1 = '+' ∨ p.1 = '-' ∨ p.1 = '*' ∨ p.1 = '/') :
    evaluate_arithmetic_core (renderArith first ops) = arith_fold first ops
    ∧ (∀ acc : Int, arith_step acc '/' 0 = acc) := by
  constructor
  · unfold evaluate_arithmetic_core renderArith arith_fold intToDecimal
    by_cases hneg : first < 0
    · rw [if_pos hneg]
      rw [List.cons_append, List.dropWhile_cons_of_neg (by decide), arith_start_neg,
        arith_loop_digits _ (natToDigits_all_digits first.natAbs), arith_loop_fold ops hops]
      have : arith_apply ⟨0, foldDigits 0 (natToDigits first.natAbs), '-', true⟩ = first := by
        rw [foldDigits_zero_natToDigits, arith_apply_first_neg]
        omega
      rw [this]
    · rw [if_neg hneg]
      cases hds : natToDigits first.natAbs with
      | nil => exact absurd hds (natToDigits_ne_nil _)
      | cons c cs =>
        have hcd : isdigit_c c = true := by
          have := natToDigits_all_digits first.natAbs
          rw [hds] at this
          exact this c (List.mem_cons_self c cs)
        rw [List.cons_append, List.dropWhile_cons_of_neg (by simp [isdigit_not_isspace c hcd]),
          arith_start_other c _ (by intro h; subst h; revert hcd; decide),
          ← List.cons_append, ← hds,
          arith_loop_digits _ (natToDigits_all_digits first.natAbs), arith_loop_fold ops hops]
        have : arith_apply ⟨0, foldDigits 0 (natToDigits first.natAbs), '+', true⟩ = first := by
          rw [foldDigits_zero_natToDigits, arith_apply_first_plus]
          omega
        rw [this]
  · intro acc
    simp [arith_step]

/-- Witness for C8 at a concrete input: the text `2+3*4/0` evaluates with no
precedence and a skipped division by zero, giving `(2+3)*4 = 20`. -/
theorem evaluate_arithmetic_is_left_fold_witness :
    evaluate_arithmetic_core (renderArith 2 [('+', 3), ('*', 4), ('/', 0)])
        = arith_fold 2 [('+', 3), ('*', 4), ('/', 0)]
    ∧ arith_fold 2 [('+', 3), ('*', 4), ('/', 0)] = 20 :=
  ⟨(evaluate_arithmetic_is_left_fold 2 [('+', 3), ('*', 4), ('/', 0)] (by decide)).1, by decide⟩

/-! ## `parse_bool_expression` (src/obbyscript.c, lines 1234-1321) and
`find_top_level_operator` (lines 779-802)

`ObbyScriptBoolExpr` is a tagged union over simple conditions, `&&`, `||`
and parenthesised groups; children are C pointers that can be `NULL`
(`Option`).  `parse_simple_condition` is abstracted to the raw trimmed
condition text it receives, which is all the tree-shape claims inspect. -/

/-- `ObbyScriptBoolExpr`: `US_EXPR_SIMPLE`, `US_EXPR_AND`, `US_EXPR_OR`,
`US_EXPR_PARENTHESES`. -/
inductive BoolExpr where
  | simple (cond : String)
  | and (left right : Option BoolExpr)
  | or (left right : Option BoolExpr)
  | paren (grouped : Option BoolExpr)
  deriving Repr

/-- Leading/trailing whitespace trim as `parse_bool_expression` performs it
(skip leading `isspace`, then null out trailing `isspace`). -/
def trim_c (l : List Char) : List Char :=
  ((l.dropWhile isspace_c).reverse.dropWhile isspace_c).reverse

/-- The scan of `find_top_level_operator` for a two-character operator
`a b`: track parenthesis depth (a C `int`, so it may go negative), and
return the index of the first occurrence at depth zero.  For a length-2
operator the word-boundary test is short-circuited in the C source. -/
def findTopLevelOp2 (a b : Char) : List Char → Int → Nat → Option Nat
  | [], _, _ => none
  | c :: rest, depth, idx =>
    if c = '(' then findTopLevelOp2 a b rest (depth + 1) (idx + 1)
    else if c = ')' then findTopLevelOp2 a b rest (depth - 1) (idx + 1)
    else if depth = 0 ∧ c = a ∧ rest.head? = some b then some idx
    else findTopLevelOp2 a b rest depth (idx + 1)

/-- `find_top_level_operator(str, op)` for the two-character operators the
parser uses, returning the index of the match instead of a pointer. -/
def find_top_level_operator (l : List Char) (a b : Char) : Option Nat :=
  findTopLevelOp2 a b l 0 0

/-- The `is_outermost` scan: walk the whole string updating depth per
character; if depth returns to zero anywhere before the final character the
outer parentheses are not a single enclosing pair. -/
def isOutermost : List Char → Int → Bool
  | [], _ => true
  | c :: rest, depth =>
    let depth' := if c = '(' then depth + 1 else if c = ')' then depth - 1 else depth
    if depth' = 0 ∧ rest ≠ [] then false
    else isOutermost rest depth'

/-- `parse_bool_expression`, fuel-indexed to make the C recursion (always on
strictly shorter text) structural; `parse_bool_expression` below supplies
enough fuel.  `NULL` results (empty input) are `none`. -/
def parse_bool_expr : Nat → List Char → Option BoolExpr
  | 0, _ => none
  | fuel + 1, l =>
    if l = [] then none
    else
      let t := trim_c l
      if t.head? = some '(' ∧ t.getLast? = some ')' ∧ isOutermost t 0 then
        some (.paren (parse_bool_expr fuel ((t.drop 1).dropLast)))
      else
        match find_top_level_operator t '|' '|' with
        | some i =>
          some (.or (parse_bool_expr fuel (t.take i)) (parse_bool_expr fuel (t.drop (i + 2))))
        | none =>
          match find_top_level_operator t '&' '&' with
          | some i =>
            some (.and (parse_bool_expr fuel (t.take i)) (parse_bool_expr fuel (t.drop (i + 2))))
          | none => some (.simple (String.mk t))

/-- `parse_bool_expression` on a string: every recursive call is on strictly
shorter text, so `length + 1` fuel reproduces the C recursion exactly. -/
def parse_bool_expression (s : String) : Option BoolExpr :=
  parse_bool_expr (s.length + 1) s.toList

/-- Net parenthesis depth contributed by a prefix of the scanned text. -/
def parenDelta (l : List Char) : Int :=
  (l.count '(' : Int) - (l.count ')' : Int)

/-- "The two-character operator `a b` occurs at index `j`, at parenthesis
depth zero" — the specification-level description of what
`find_top_level_operator` looks for. -/
def opMatchAt (a b : Char) (l : List Char) (j : Nat) : Prop :=
  l.get? j = some a ∧ l.get? (j + 1) = some b ∧ parenDelta (l.take j) = 0

theorem parenDelta_take_cons_open (l : List Char) (j : Nat) :
    parenDelta (('(' :: l).take (j + 1)) = 1 + parenDelta (l.take j) := by
  simp [parenDelta, List.take_succ_cons, List.count_cons]
  ring

theorem parenDelta_take_cons_close (l : List Char) (j : Nat) :
    parenDelta ((')' :: l).take (j + 1)) = parenDelta (l.take j) - 1 := by
  simp [parenDelta, List.take_succ_cons, List.count_cons]
  ring

theorem parenDelta_take_cons_other (c : Char) (l : List Char) (j : Nat)
    (h1 : ¬(c = '(')) (h2 : ¬(c = ')')) :
    parenDelta ((c :: l).take (j + 1)) = parenDelta (l.take j) := by
  simp [parenDelta, List.take_succ_cons, List.count_cons, h1, h2]

/-- The scan of `find_top_level_operator` returns the *first* depth-zero
occurrence: generalized over the running depth and index. -/
theorem findTopLevelOp2_first (a b : Char) (ha1 : ¬(a = '(')) (ha2 : ¬(a = ')')) :
    ∀ (l : List Char) (d : Int) (idx r : Nat),
      findTopLevelOp2 a b l d idx = some r →
      ∃ j, r = idx + j
        ∧ (l.get? j = some a ∧ l.get? (j + 1) = some b ∧ d + parenDelta (l.take j) = 0)
        ∧ ∀ k < j, ¬(l.get? k = some a ∧ l.get? (k + 1) = some b
            ∧ d + parenDelta (l.take k) = 0) := by
  intro l
  induction l with
  | nil => intro d idx r h; exact absurd h (by simp [findTopLevelOp2])
  | cons c rest ih =>
    intro d idx r h
    unfold findTopLevelOp2 at h
    by_cases hc1 : c = '('
    · rw [if_pos hc1] at h
      obtain ⟨j', hj', hmatch, hmin⟩ := ih (d + 1) (idx + 1) r h
      subst hc1
      refine ⟨j' + 1, by omega, ?_, ?_⟩
      · refine ⟨hmatch.1, hmatch.2.1, ?_⟩
        rw [parenDelta_take_cons_open]
        have := hmatch.2.2
        omega
      · intro k hk
        match k with
        | 0 =>
          rintro ⟨hk1, -, -⟩
          simp only [List.get?] at hk1
          exact ha1 (Option.some.injEq _ _ ▸ hk1.symm)
        | k' + 1 =>
          rintro ⟨hk1, hk2, hk3⟩
          rw [parenDelta_take_cons_open] at hk3
          exact hmin k' (by omega) ⟨hk1, hk2, by omega⟩
    · rw [if_neg hc1] at h
      by_cases hc2 : c = ')'
      · rw [if_pos hc2] at h
        obtain ⟨j', hj', hmatch, hmin⟩ := ih (d - 1) (idx + 1) r h
        subst hc2
        refine ⟨j' + 1, by omega, ?_, ?_⟩
        · refine ⟨hmatch.1, hmatch.2.1, ?_⟩
          rw [parenDelta_take_cons_close]
          have := hmatch.2.2
          omega
        · intro k hk
          match k with
          | 0 =>
            rintro ⟨hk1, -, -⟩
            simp only [List.get?] at hk1
            exact ha2 (Option.some.injEq _ _ ▸ hk1.symm)
          | k' + 1 =>
            rintro ⟨hk1, hk2, hk3⟩
            rw [parenDelta_take_cons_close] at hk3
            exact hmin k' (by omega) ⟨hk1, hk2, by omega⟩
      · rw [if_neg hc2] at h
        by_cases hm : d = 0 ∧ c = a ∧ rest.head? = some b
        · rw [if_pos hm] at h
          have hr : r = idx := by
            injection h with h'
            exact h'.symm
          refine ⟨0, by omega, ?_, fun k hk => absurd hk (by omega)⟩
          refine ⟨?_, ?_, ?_⟩
          · simp only [List.get?]
            rw [hm.2.1]
          · have hhd : (c :: rest).get? (0 + 1) = rest.head? := by cases rest <;> rfl
            rw [hhd]
            exact hm.2.2
          · simp [parenDelta, hm.1]
        · rw [if_neg hm] at h
          obtain ⟨j', hj', hmatch, hmin⟩ := ih d (idx + 1) r h
          refine ⟨j' + 1, by omega, ?_, ?_⟩
          · refine ⟨hmatch.1, hmatch.2.1, ?_⟩
            rw [parenDelta_take_cons_other c rest j' hc1 hc2]
            exact hmatch.2.2
          · intro k hk
            match k with
            | 0 =>
              rintro ⟨hk1, hk2, hk3⟩
              simp only [List.get?] at hk1
              have hca : c = a := by
                injection hk1
              have hrb : rest.head? = some b := by
                have : rest.head? = rest.get? 0 := by cases rest <;> rfl
                rw [this]
                exact hk2
              have hd0 : d = 0 := by
                simp only [List.take_zero, parenDelta, List.count_nil] at hk3
                omega
              exact hm ⟨hd0, hca, hrb⟩
            | k' + 1 =>
              rintro ⟨hk1, hk2, hk3⟩
              rw [parenDelta_take_cons_other c rest k' hc1 hc2] at hk3
              exact hmin k' (by omega) ⟨hk1, hk2, hk3⟩

/-- C3: `||` has the lowest precedence and `&&` the next, the parser splits
at the *first* top-level occurrence outside parentheses
(`find_top_level_operator` returns the first depth-zero match), and a
fully-enclosing matched outer parenthesis pair becomes a `Paren` node:
`a && b || c` parses as `Or(And(a,b), c)`, `a || b && c` parses as
`Or(a, And(b,c))`, and `(a || b) && c` parses as `And(Paren(Or(a,b)), c)`. -/
theorem parse_bool_expression_precedence :
    parse_bool_expression "a && b || c"
        = some (.or (some (.and (some (.simple "a")) (some (.simple "b"))))
            (some (.simple "c")))
    ∧ parse_bool_expression "a || b && c"
        = some (.or (some (.simple "a"))
            (some (.and (some (.simple "b")) (some (.simple "c")))))
    ∧ parse_bool_expression "(a || b) && c"
        = some (.and (some (.paren (some (.or (some (.simple "a")) (some (.simple "b"))))))
            (some (.simple "c")))
    ∧ (∀ (l : List Char) (a b : Char) (i : Nat), ¬(a = '(') → ¬(a = ')') →
        find_top_level_operator l a b = some i →
        opMatchAt a b l i ∧ ∀ j < i, ¬opMatchAt a b l j) := by
  refine ⟨rfl, rfl, rfl, ?_⟩
  intro l a b i ha1 ha2 hfind
  obtain ⟨j, hj, hmatch, hmin⟩ := findTopLevelOp2_first a b ha1 ha2 l 0 0 i hfind
  have hij : i = j := by omega
  subst hij
  constructor
  · exact ⟨hmatch.1, hmatch.2.1, by have := hmatch.2.2; omega⟩
  · intro k hk hcon
    exact hmin k hk ⟨hcon.1, hcon.2.1, by have := hcon.2.2; omega⟩

/-- Witness for C3's general conjunct: in `a || b` the `||` found at index 2
is a depth-zero match and the first one. -/
theorem parse_bool_expression_precedence_witness :
    opMatchAt '|' '|' "a || b".toList 2 ∧ ∀ j < 2, ¬opMatchAt '|' '|' "a || b".toList j :=
  parse_bool_expression_precedence.2.2.2 "a || b".toList '|' '|' 2
    (by decide) (by decide) (by rfl)

/-! ## The validation pass of `substitute_variables` (src/obbyscript.c,
lines 3371-3473)

`substitute_variables` scans its *input* for `'$'` and rejects (returns the
`"SYNTAX_ERROR"` sentinel) when one of the six recognized tokens is followed
by a character its grammar does not allow.  The branches are tested in the
order of the C `else if` chain: `$true`, `$false`, `$client`, `$chan`,
`$channel`, `$server` — prefix tests, so the `$chan` branch also captures
any `$channel…` occurrence.  `validate_vars l = false` means the sentinel is
returned. -/

/-- Allowed follow character after `$true` / `$false`: end of string,
whitespace, `)`, `,`, `"`. -/
def followOk_bool (o : Option Char) : Bool :=
  match o with
  | none => true
  | some c => isspace_c c || c = ')' || c = ',' || c = '"'

/-- Allowed follow character after `$client` / `$chan` / `$channel` /
`$server`: `.`, end of string, whitespace. -/
def followOk_obj (o : Option Char) : Bool :=
  match o with
  | none => true
  | some c => c = '.' || isspace_c c

/-- The variable-syntax validation scan of `substitute_variables`:
at each `'$'` test the six token prefixes in the C source's order and check
the follow character; any failure yields the `SYNTAX_ERROR` sentinel
(modelled as `false`). -/
def validate_vars : List Char → Bool
  | [] => true
  | c :: rest =>
    (if c = '$' then
      let l := c :: rest
      if "$true".toList.isPrefixOf l then followOk_bool (l.get? 5)
      else if "$false".toList.isPrefixOf l then followOk_bool (l.get? 6)
      else if "$client".toList.isPrefixOf l then followOk_obj (l.get? 7)
      else if "$chan".toList.isPrefixOf l then followOk_obj (l.get? 5)
      else if "$channel".toList.isPrefixOf l then followOk_obj (l.get? 8)
      else if "$server".toList.isPrefixOf l then followOk_obj (l.get? 7)
      else true
    else true) && validate_vars rest

/-- C4 (failing input): the claim says the validation pass accepts every
`$channel.property` token, but the `$chan` branch of the `else if` chain
prefix-matches `$channel.name` first and rejects it because its follow
character is `n`; the dedicated `$channel` branch of the C source is
unreachable.  `$chan.name` shows the intended shape is otherwise accepted,
so `substitute_variables("$channel.name")` returns the `SYNTAX_ERROR`
sentinel while the same property access through `$chan` is accepted. -/
theorem validate_vars_rejects_channel_property :
    validate_vars "$channel.name".toList = false
    ∧ validate_vars "$chan.name".toList = true
    ∧ validate_vars "$client.name".toList = true
    ∧ validate_vars "$server.name".toList = true := by
  refine ⟨?_, ?_, ?_, ?_⟩ <;> rfl

/-! ## Arrays (src/obbyscript.c: `array_get_string` lines 6841-6851, array
element substitution lines 3755-3790)

`ObbyScriptArray` holds `size` live slots (`elements[0..size-1]`), each a
possibly-`NULL` pointer to an element that holds a possibly-`NULL`
`string_value`.  The slack between `size` and `capacity` is never read, so
the model keeps exactly the live slots. -/

/-- `ObbyScriptVarType`. -/
inductive VarType where
  | string
  | client
  | channel
  | array
  deriving Repr, DecidableEq

/-- An `ObbyScriptArrayElement`: tagged `string_value` (owned, possibly
`NULL`) or weak `object_ptr` (modelled by the host object's name). -/
structure ArrayElement where
  type : VarType
  string_value : Option String
  object_name : Option String
  deriving Repr, DecidableEq

/-- An `ObbyScriptArray`: the `size` live slots, each possibly `NULL`. -/
structure ObbyArray where
  elements : List (Option ArrayElement)
  deriving Repr, DecidableEq

/-- `array_get_string(array, index)`: `NULL` for a negative or
out-of-range index, a `NULL` slot, or a `NULL` `string_value`. -/
def array_get_string (a : ObbyArray) (index : Int) : Option String :=
  if index < 0 ∨ (a.elements.length : Int) ≤ index then none
  else
    match a.elements.get? index.toNat with
    | none => none
    | some none => none
    | some (some elem) => elem.string_value

/-- The array-index branch of `substitute_variables`: a `NULL`
`array_get_string` result renders as the literal text `$null`. -/
def array_index_replacement (a : ObbyArray) (index : Int) : String :=
  match array_get_string a index with
  | some s => s
  | none => "$null"

/-- C5: for every array and every index `i ≥ size`, `array_get_string`
returns no stored value (`NULL`), and the variable-substitution pass
renders that access as the literal text `$null`. -/
theorem array_get_string_out_of_range (a : ObbyArray) (i : Int)
    (h : (a.elements.length : Int) ≤ i) :
    array_get_string a i = none ∧ array_index_replacement a i = "$null" := by
  have hg : array_get_string a i = none := by
    unfold array_get_string
    rw [if_pos (Or.inr h)]
  exact ⟨hg, by unfold array_index_replacement; rw [hg]⟩

/-- Witness for C5: a two-element array read at index 2. -/
theorem array_get_string_out_of_range_witness :
    array_get_string ⟨[some ⟨.string, some "x", none⟩, none]⟩ 2 = none
    ∧ array_index_replacement ⟨[some ⟨.string, some "x", none⟩, none]⟩ 2 = "$null" :=
  array_get_string_out_of_range ⟨[some ⟨.string, some "x", none⟩, none]⟩ 2 (by norm_num)

/-! ## Variables and scopes (src/obbyscript.c: `set_variable` lines
6606-6640, `set_variable_object` lines 6642-6678, `get_variable` lines
6680-6690, `find_variable` lines 6703-6725)

A scope is a variable list plus a parent pointer; scope chains are linear,
so a scope is modelled as the list of variable frames from the current
scope up to the root (`[]` models a `NULL` scope pointer).  Variable names
and values are `List Char` (C strings).  Each entry point strips one
leading `'%'` from its name argument; `find_variable` strips one more, and
again at every recursion into a parent. -/

/-- An `ObbyScriptVariable`; `object_ptr` is a weak reference to a host
object, modelled by that object's name. -/
structure ObbyVariable where
  name : List Char
  type : VarType
  value : Option (List Char)
  object_name : Option String
  array_ptr : Option ObbyArray
  is_const : Bool
  deriving Repr, DecidableEq

/-- A scope chain: current frame first, then the parents up to the global
scope; `[]` is a `NULL` scope. -/
abbrev Scope := List (List ObbyVariable)

/-- `(name[0] == '%') ? name + 1 : name` — strip exactly one leading `%`. -/
def clean_name (l : List Char) : List Char :=
  match l with
  | [] => []
  | c :: rest => if c = '%' then rest else c :: rest

/-- `find_variable`: strip one `%`, search the current frame, then recurse
into the parent chain (the C recursion passes the already-stripped name,
which is stripped once more at each level). -/
def find_variable : Scope → List Char → Option ObbyVariable
  | [], _ => none
  | vs :: ps, name =>
    let clean := clean_name name
    match vs.find? (fun v => v.name == clean) with
    | some v => some v
    | none => find_variable ps clean

/-- In-place update of the first variable called `clean` in one frame:
`set_variable` overwrites only `value`. -/
def update_value_first : List ObbyVariable → List Char → Option (List Char) → List ObbyVariable
  | [], _, _ => []
  | v :: rest, clean, value =>
    if v.name == clean then { v with value := value } :: rest
    else v :: update_value_first rest clean value

/-- The frame-chain location written through the pointer `find_variable`
returned: the first frame holding a match, under the same per-level name
re-stripping as `find_variable`. -/
def update_value_chain : Scope → List Char → Option (List Char) → Scope
  | [], _, _ => []
  | vs :: ps, name, value =>
    let clean := clean_name name
    if (vs.find? (fun v => v.name == clean)).isSome then
      update_value_first vs clean value :: ps
    else vs :: update_value_chain ps clean value

/-- `set_variable(scope, name, value, is_const)`: a `NULL` scope is a no-op;
a const hit warns and changes nothing; an existing variable gets only its
`value` overwritten; otherwise a new string variable is prepended to the
*current* frame. -/
def set_variable (scope : Scope) (name : List Char) (value : Option (List Char))
    (is_const : Bool) : Scope :=
  match scope with
  | [] => []
  | vs :: ps =>
    let clean := clean_name name
    match find_variable (vs :: ps) clean with
    | some existing =>
      if existing.is_const then vs :: ps
      else update_value_chain (vs :: ps) clean value
    | none => (⟨clean, .string, value, none, none, is_const⟩ :: vs) :: ps

/-- In-place update for `set_variable_object`: `value` is freed and nulled,
`type` and `object_ptr` overwritten, `array_ptr` untouched. -/
def update_object_first : List ObbyVariable → List Char → Option String → VarType → List ObbyVariable
  | [], _, _, _ => []
  | v :: rest, clean, obj, ty =>
    if v.name == clean then { v with value := none, type := ty, object_name := obj } :: rest
    else v :: update_object_first rest clean obj ty

/-- The frame-chain location written by `set_variable_object`. -/
def update_object_chain : Scope → List Char → Option String → VarType → Scope
  | [], _, _, _ => []
  | vs :: ps, name, obj, ty =>
    let clean := clean_name name
    if (vs.find? (fun v => v.name == clean)).isSome then
      update_object_first vs clean obj ty :: ps
    else vs :: update_object_chain ps clean obj ty

/-- `set_variable_object(scope, name, object_ptr, type, is_const)`. -/
def set_variable_object (scope : Scope) (name : List Char) (obj : Option String)
    (ty : VarType) (is_const : Bool) : Scope :=
  match scope with
  | [] => []
  | vs :: ps =>
    let clean := clean_name name
    match find_variable (vs :: ps) clean with
    | some existing =>
      if existing.is_const then vs :: ps
      else update_object_chain (vs :: ps) clean obj ty
    | none => (⟨clean, ty, none, obj, none, is_const⟩ :: vs) :: ps

/-- `get_variable`: strip one `%`, then `find_variable`, then the found
variable's `value` (`NULL` both for a miss and for a `NULL` value). -/
def get_variable (scope : Scope) (name : List Char) : Option (List Char) :=
  match find_variable scope (clean_name name) with
  | some v => v.value
  | none => none

/-- C6: a variable whose `find_variable` hit is const makes `set_variable`
and `set_variable_object` warn-and-return: the whole scope chain — the
stored value, type, object pointer, const flag, and every other variable —
is left exactly as it was. -/
theorem set_variable_const_noop (scope : Scope) (name : List Char) (v : ObbyVariable)
    (hfind : find_variable scope (clean_name name) = some v) (hconst : v.is_const = true) :
    (∀ value : Option (List Char), ∀ c : Bool, set_variable scope name value c = scope)
    ∧ (∀ obj : Option String, ∀ ty : VarType, ∀ c : Bool,
        set_variable_object scope name obj ty c = scope) := by
  match scope with
  | [] => simp [find_variable] at hfind
  | vs :: ps =>
    constructor
    · intro value c
      simp only [set_variable]
      rw [hfind]
      simp [hconst]
    · intro obj ty c
      simp only [set_variable_object]
      rw [hfind]
      simp [hconst]

/-- Witness for C6: reassigning the const variable `%pi` (value `3`) in a
two-variable scope changes nothing. -/
theorem set_variable_const_noop_witness :
    set_variable [[⟨['p', 'i'], .string, some ['3'], none, none, true⟩,
        ⟨['x'], .string, some ['1'], none, none, false⟩]]
      ['%', 'p', 'i'] (some ['4']) false
      = [[⟨['p', 'i'], .string, some ['3'], none, none, true⟩,
          ⟨['x'], .string, some ['1'], none, none, false⟩]] :=
  (set_variable_const_noop
    [[⟨['p', 'i'], .string, some ['3'], none, none, true⟩,
      ⟨['x'], .string, some ['1'], none, none, false⟩]]
    ['%', 'p', 'i'] ⟨['p', 'i'], .string, some ['3'], none, none, true⟩
    (by rfl) rfl).1 (some ['4']) false

theorem clean_name_percent (x : List Char) : clean_name ('%' :: x) = x := by
  simp [clean_name]

theorem clean_name_eq_self (x : List Char) (h : x.head? ≠ some '%') : clean_name x = x := by
  match x with
  | [] => rfl
  | c :: rest =>
    have hc : ¬(c = '%') := fun hh => h (by rw [hh]; rfl)
    simp [clean_name, hc]

theorem find_variable_congr (a b : List Char) (h : clean_name a = clean_name b) :
    ∀ s : Scope, find_variable s a = find_variable s b := by
  intro s
  match s with
  | [] => rfl
  | vs :: ps => simp only [find_variable, h]

theorem set_variable_congr (a b : List Char) (h : clean_name a = clean_name b) :
    ∀ (s : Scope) (value : Option (List Char)) (c : Bool),
      set_variable s a value c = set_variable s b value c := by
  intro s value c
  match s with
  | [] => rfl
  | vs :: ps => simp only [set_variable, h]

/-- C10 (counterexample): the claim quantifies over *every* name, but for a
name that itself begins with `'%'` the operations on `"%x"` and `"x"` do not
access the same variable.  `set_variable` on `"%%a"` creates a variable
literally named `"%a"` (one `%` stripped); `find_variable` on `"%%a"` finds
it (one more `%` stripped by `find_variable` itself), while `find_variable`
on `"%a"` searches for `"a"` and misses. -/
theorem variable_percent_name_counterexample :
    set_variable [[]] ['%', '%', 'a'] (some ['v']) false
        = [[⟨['%', 'a'], .string, some ['v'], none, none, false⟩]]
    ∧ find_variable [[⟨['%', 'a'], .string, some ['v'], none, none, false⟩]] ['%', '%', 'a']
        = some ⟨['%', 'a'], .string, some ['v'], none, none, false⟩
    ∧ find_variable [[⟨['%', 'a'], .string, some ['v'], none, none, false⟩]] ['%', 'a']
        = none :=
  ⟨rfl, rfl, rfl⟩

/-- C10 (amended): every scope operation normalizes its name argument by
stripping exactly one leading `'%'` (and `find_variable` strips once more,
at every level); hence for every name `x` that does not itself begin with
`'%'`, `set_variable`, `get_variable` and `find_variable` applied to `"%x"`
and to `"x"` access the same variable.  `find_variable` searches the
current scope's variable list first, and only on a miss recurses into the
parent scope chain. -/
theorem variable_name_normalization (x : List Char) (h : x.head? ≠ some '%') (s : Scope) :
    (find_variable s ('%' :: x) = find_variable s x)
    ∧ (get_variable s ('%' :: x) = get_variable s x)
    ∧ (∀ (value : Option (List Char)) (c : Bool),
        set_variable s ('%' :: x) value c = set_variable s x value c)
    ∧ (∀ (vs : List ObbyVariable) (ps : Scope) (v : ObbyVariable),
        vs.find? (fun w => w.name == clean_name x) = some v →
        find_variable (vs :: ps) x = some v)
    ∧ (∀ (vs : List ObbyVariable) (ps : Scope),
        vs.find? (fun w => w.name == clean_name x) = none →
        find_variable (vs :: ps) x = find_variable ps (clean_name x)) := by
  have hcn : clean_name ('%' :: x) = clean_name x := by
    rw [clean_name_percent, clean_name_eq_self x h]
  refine ⟨find_variable_congr _ _ hcn s, ?_, set_variable_congr _ _ hcn s, ?_, ?_⟩
  · unfold get_variable
    rw [find_variable_congr (clean_name ('%' :: x)) (clean_name x) (by rw [hcn]) s]
  · intro vs ps v hv
    simp only [find_variable, hv]
  · intro vs ps hmiss
    simp only [find_variable, hmiss]

/-- Witness for C10 (amended) at the name `i` in a one-variable scope. -/
theorem variable_name_normalization_witness :
    find_variable [[⟨['i'], .string, some ['5'], none, none, false⟩]] ['%', 'i']
        = find_variable [[⟨['i'], .string, some ['5'], none, none, false⟩]] ['i']
    ∧ get_variable [[⟨['i'], .string, some ['5'], none, none, false⟩]] ['%', 'i'] = some ['5'] :=
  ⟨(variable_name_normalization ['i'] (by decide)
      [[⟨['i'], .string, some ['5'], none, none, false⟩]]).1, rfl⟩

/-! ## Deferred destructive commands (src/obbyscript.c:
`is_destructive_command` lines 6422-6450, `add_deferred_action` lines
6453-6479, `execute_deferred_actions` lines 6482-6542, and the
`US_ACTION_COMMAND` case of `execute_script_action` lines 3930-4001)

Host objects are modelled by their names; the host's `find_client` /
`find_channel` become lookups in a `World` of currently-live objects.
Variable substitution is passed in as an opaque total function (a `NULL`
result from `substitute_variables` makes the C code fall back to the
original argument text, so totality is faithful). -/

/-- A live client (only its `name` is read by this machinery). -/
structure Client where
  name : String
  deriving Repr, DecidableEq

/-- A live channel (only its `name` is read by this machinery). -/
structure Channel where
  name : String
  deriving Repr, DecidableEq

/-- C `tolower` for the ASCII range. -/
def tolower_c (c : Char) : Char :=
  if 'A' ≤ c ∧ c ≤ 'Z' then Char.ofNat (c.toNat + 32) else c

/-- `strcasecmp(a, b) == 0` (ASCII case-insensitive equality). -/
def strcaseeq (a b : String) : Bool :=
  a.toList.map tolower_c == b.toList.map tolower_c

/-- `is_destructive_command`: KICK/KILL/KLINE/GLINE/ZLINE/SHUN always, and
SVSJOIN/SAJOIN/JOIN while `in_join_context` is set. -/
def is_destructive_command (in_join_context : Bool) (command : String) : Bool :=
  strcaseeq command "KICK" || strcaseeq command "KILL" || strcaseeq command "KLINE"
    || strcaseeq command "GLINE" || strcaseeq command "ZLINE" || strcaseeq command "SHUN"
    || (in_join_context &&
        (strcaseeq command "SVSJOIN" || strcaseeq command "SAJOIN" || strcaseeq command "JOIN"))

/-- An `ObbyScriptDeferredAction`: the command, its already-substituted
arguments, and the *names* (not pointers) of the client and channel. -/
structure DeferredAction where
  command : String
  args : List String
  client_name : Option String
  channel_name : Option String
  deriving Repr, DecidableEq

/-- `add_deferred_action`: record `client->name` / `channel->name` and
prepend to the queue. -/
def add_deferred_action (command : String) (args : List String)
    (client : Option Client) (channel : Option Channel)
    (queue : List DeferredAction) : List DeferredAction :=
  ⟨command, args, client.map Client.name, channel.map Channel.name⟩ :: queue

/-- Outcome of the `US_ACTION_COMMAND` case of `execute_script_action`. -/
inductive CmdEffect where
  | aborted
  | deferred (d : DeferredAction)
  | dispatched (command : String) (args : List String)
  deriving Repr, DecidableEq

/-- The `US_ACTION_COMMAND` case of `execute_script_action`: substitute the
(at most 23, `parc < 24`) arguments; a `SYNTAX_ERROR` sentinel aborts the
chain; a destructive command is enqueued as a `DeferredAction` via
`add_deferred_action` instead of being dispatched through `do_cmd`; anything
else is dispatched immediately.  (`execute_script_action` returns before
this case when `client` is `NULL`, so the client is always live here.) -/
def execute_command_action (in_join_context : Bool) (subst : String → String)
    (function : String) (args : List String)
    (client : Client) (channel : Option Channel) : CmdEffect :=
  if ((args.take 23).map subst).contains "SYNTAX_ERROR" then .aborted
  else if is_destructive_command in_join_context function then
    .deferred ⟨function, (args.take 23).map subst, some client.name, channel.map Channel.name⟩
  else .dispatched function ((args.take 23).map subst)

/-- The live host objects at replay time. -/
structure World where
  clients : List Client
  channels : List Channel

/-- The host's `find_client` at replay time: a name resolves iff a live
client carries it. -/
def find_client (w : World) (name : String) : Option Client :=
  w.clients.find? (fun c => c.name == name)

/-- The host's `find_channel` at replay time. -/
def find_channel (w : World) (name : String) : Option Channel :=
  w.channels.find? (fun c => c.name == name)

/-- The skip test of `execute_deferred_actions`:
`(action->client_name && !client) || (action->channel_name && !channel)`. -/
def deferred_should_skip (w : World) (d : DeferredAction) : Bool :=
  (d.client_name.isSome && (d.client_name.bind (find_client w)).isNone)
    || (d.channel_name.isSome && (d.channel_name.bind (find_channel w)).isNone)

/-- `execute_deferred_actions`: guarded by the `executing_deferred_actions`
re-entrancy flag, it walks the queue, re-resolves each recorded name,
silently skips an action whose client or channel name no longer resolves,
and dispatches the rest through `do_cmd` after re-substituting the (at most
23) arguments against the re-resolved objects; returns the dispatches. -/
def execute_deferred_actions (w : World)
    (subst : Option Client → Option Channel → String → String)
    (executing_deferred_actions : Bool)
    (queue : List DeferredAction) : List (String × List String) :=
  if executing_deferred_actions then []
  else
    queue.filterMap (fun d =>
      if deferred_should_skip w d then none
      else some (d.command, (d.args.take 23).map
        (subst (d.client_name.bind (find_client w)) (d.channel_name.bind (find_channel w)))))

theorem filterMap_if_eq_filter_map {α β : Type} (p : α → Bool) (f : α → β) (l : List α) :
    l.filterMap (fun x => if p x then none else some (f x))
      = (l.filter (fun x => !p x)).map f := by
  induction l with
  | nil => rfl
  | cons a rest ih =>
    rw [List.filterMap_cons, List.filter_cons]
    rcases Bool.eq_false_or_eq_true (p a) with hf | ht
    · simp only [hf, Bool.not_false, if_true]
      simp [ih]
    · simp only [ht, Bool.not_true, if_false]
      simp [ih]

/-- C1: a destructive command action is never dispatched synchronously: it
becomes a `DeferredAction` recording the client and channel *names*; and at
replay `execute_deferred_actions` re-resolves each name, silently dropping
every deferred action whose recorded client or channel name no longer
resolves to a live object while dispatching exactly the remaining ones. -/
theorem destructive_commands_are_deferred
    (in_join_context : Bool) (subst : String → String) (function : String)
    (args : List String) (client : Client) (channel : Option Channel)
    (hdest : is_destructive_command in_join_context function = true)
    (hok : ((args.take 23).map subst).contains "SYNTAX_ERROR" = false) :
    (execute_command_action in_join_context subst function args client channel
        = .deferred ⟨function, (args.take 23).map subst,
            some client.name, channel.map Channel.name⟩
      ∧ ∀ cmd outargs, execute_command_action in_join_context subst function args client channel
          ≠ .dispatched cmd outargs)
    ∧ (∀ (w : World) (s2 : Option Client → Option Channel → String → String)
         (d : DeferredAction),
        (deferred_should_skip w d = true ↔
          ((∃ n, d.client_name = some n ∧ find_client w n = none)
            ∨ (∃ m, d.channel_name = some m ∧ find_channel w m = none)))
        ∧ (deferred_should_skip w d = true → execute_deferred_actions w s2 false [d] = [])
        ∧ ∀ queue : List DeferredAction,
            execute_deferred_actions w s2 false queue
              = (queue.filter (fun a => !deferred_should_skip w a)).map
                  (fun a => (a.command, (a.args.take 23).map
                    (s2 (a.client_name.bind (find_client w))
                        (a.channel_name.bind (find_channel w)))))) := by
  constructor
  · have heq : execute_command_action in_join_context subst function args client channel
        = .deferred ⟨function, (args.take 23).map subst,
            some client.name, channel.map Channel.name⟩ := by
      unfold execute_command_action
      rw [hok, if_neg (by decide), if_pos hdest]
    exact ⟨heq, fun cmd outargs hcontra => by rw [heq] at hcontra; exact CmdEffect.noConfusion hcontra⟩
  · intro w s2 d
    refine ⟨?_, ?_, ?_⟩
    · unfold deferred_should_skip
      constructor
      · intro hskip
        rcases Bool.or_eq_true_iff.1 hskip with hcl | hch
        · left
          rcases Bool.and_eq_true_iff.1 hcl with ⟨hs, hn⟩
          match hc : d.client_name with
          | none => rw [hc] at hs; exact absurd hs (by decide)
          | some n =>
            refine ⟨n, rfl, ?_⟩
            rw [hc] at hn
            simpa using hn
        · right
          rcases Bool.and_eq_true_iff.1 hch with ⟨hs, hn⟩
          match hc : d.channel_name with
          | none => rw [hc] at hs; exact absurd hs (by decide)
          | some m =>
            refine ⟨m, rfl, ?_⟩
            rw [hc] at hn
            simpa using hn
      · rintro (⟨n, hn, hfind⟩ | ⟨m, hm, hfind⟩)
        · apply Bool.or_eq_true_iff.2
          left
          rw [hn]
          simp [hfind]
        · apply Bool.or_eq_true_iff.2
          right
          rw [hm]
          simp [hfind]
    · intro hskip
      unfold execute_deferred_actions
      simp [hskip]
    · intro queue
      unfold execute_deferred_actions
      rw [if_neg (by decide)]
      exact filterMap_if_eq_filter_map (deferred_should_skip w)
        (fun a => (a.command, (a.args.take 23).map
          (s2 (a.client_name.bind (find_client w)) (a.channel_name.bind (find_channel w)))))
        queue

/-- Witness for C1: the spec's deferred-KICK scenario — `KICK` issued from a
JOIN hook (identity substitution, client `bob`, channel `#test`) is
enqueued, not dispatched. -/
theorem destructive_commands_are_deferred_witness :
    execute_command_action true (fun s => s) "KICK" ["#test", "bob", "bye"]
        ⟨"bob"⟩ (some ⟨"#test"⟩)
      = .deferred ⟨"KICK", ["#test", "bob", "bye"], some "bob", some "#test"⟩ :=
  (destructive_commands_are_deferred true (fun s => s) "KICK" ["#test", "bob", "bye"]
    ⟨"bob"⟩ (some ⟨"#test"⟩) (by decide) (by decide)).1.1

/-! ## Script parsing (src/obbyscript.c: `parse_script_content` lines
1355-1747, `parse_event_type` lines 1749-1816)

`parse_script_content` walks the file text line by line (`strtok_r` on
`"\n"`, which skips empty segments), recognizing `function`, `on` and `new`
headers, capturing each `{ … }` block by per-line brace counting.
`parse_action_block` is abstracted to the raw captured block text, which is
all these claims inspect. -/

/-- `ObbyScriptEventType`. -/
inductive EventType where
  | US_EVENT_START | US_EVENT_CONNECT | US_EVENT_QUIT | US_EVENT_CAN_JOIN | US_EVENT_JOIN
  | US_EVENT_PART | US_EVENT_KICK | US_EVENT_NICK | US_EVENT_PRIVMSG | US_EVENT_NOTICE
  | US_EVENT_TOPIC | US_EVENT_MODE | US_EVENT_INVITE | US_EVENT_KNOCK | US_EVENT_AWAY
  | US_EVENT_OPER | US_EVENT_KILL | US_EVENT_UMODE_CHANGE | US_EVENT_CHANMODE
  | US_EVENT_CHANNEL_CREATE | US_EVENT_CHANNEL_DESTROY | US_EVENT_WHOIS | US_EVENT_REHASH
  | US_EVENT_ACCOUNT_LOGIN | US_EVENT_PRE_COMMAND | US_EVENT_POST_COMMAND
  | US_EVENT_TKL_ADD | US_EVENT_TKL_DEL | US_EVENT_SPAMFILTER | US_EVENT_COMMAND_OVERRIDE
  | US_EVENT_COMMAND_NEW | US_EVENT_MAX
  deriving Repr, DecidableEq

/-- The `else if (strcasecmp(event_str, …) == 0)` chain of
`parse_event_type`, in source order, as a first-match lookup table. -/
def recognized_events : List (String × EventType) :=
  [("START", .US_EVENT_START), ("CONNECT", .US_EVENT_CONNECT), ("QUIT", .US_EVENT_QUIT),
   ("CAN_JOIN", .US_EVENT_CAN_JOIN), ("JOIN", .US_EVENT_JOIN), ("PART", .US_EVENT_PART),
   ("KICK", .US_EVENT_KICK), ("NICK", .US_EVENT_NICK), ("PRIVMSG", .US_EVENT_PRIVMSG),
   ("NOTICE", .US_EVENT_NOTICE), ("TOPIC", .US_EVENT_TOPIC), ("MODE", .US_EVENT_MODE),
   ("INVITE", .US_EVENT_INVITE), ("KNOCK", .US_EVENT_KNOCK), ("AWAY", .US_EVENT_AWAY),
   ("OPER", .US_EVENT_OPER), ("KILL", .US_EVENT_KILL), ("UMODE", .US_EVENT_UMODE_CHANGE),
   ("CHANMODE", .US_EVENT_CHANMODE), ("CHANNEL_CREATE", .US_EVENT_CHANNEL_CREATE),
   ("CHANNEL_DESTROY", .US_EVENT_CHANNEL_DESTROY), ("WHOIS", .US_EVENT_WHOIS),
   ("REHASH", .US_EVENT_REHASH), ("ACCOUNT_LOGIN", .US_EVENT_ACCOUNT_LOGIN),
   ("PRE_COMMAND", .US_EVENT_PRE_COMMAND), ("POST_COMMAND", .US_EVENT_POST_COMMAND),
   ("TKL_ADD", .US_EVENT_TKL_ADD), ("TKL_DEL", .US_EVENT_TKL_DEL),
   ("SPAMFILTER", .US_EVENT_SPAMFILTER), ("COMMAND", .US_EVENT_COMMAND_OVERRIDE)]

/-- `parse_event_type`: exact case-insensitive name lookup; every
unrecognized name maps to the sentinel `US_EVENT_MAX`. -/
def parse_event_type (s : String) : EventType :=
  match recognized_events.find? (fun p => strcaseeq s p.1) with
  | some p => p.2
  | none => .US_EVENT_MAX

/-- An `ObbyScriptRule`: event, target, and the raw captured action-block
text (standing for the `parse_action_block` result). -/
structure Rule where
  event : EventType
  target : String
  actions : String
  deriving Repr, DecidableEq

/-- The event gate of the dispatch loop (src/obbyscript.c line 6362):
a rule is considered for a host event only if `rule->event == event`. -/
def rule_matches_event (r : Rule) (e : EventType) : Bool :=
  r.event == e

/-- First occurrence split: `strchr` returning the text before and after
the found character. -/
def split_at_char : List Char → Char → Option (List Char × List Char)
  | [], _ => none
  | x :: rest, c =>
    if x = c then some ([], rest)
    else
      match split_at_char rest c with
      | some (b, a) => some (x :: b, a)
      | none => none

/-- `strchr` returning the text after the found character. -/
def after_char : List Char → Char → Option (List Char)
  | [], _ => none
  | x :: rest, c => if x = c then some rest else after_char rest c

/-- Net brace count of one physical line (`{` increments, `}` decrements). -/
def braceDelta (line : String) : Int :=
  (line.toList.count '{' : Int) - (line.toList.count '}' : Int)

/-- The block-capture loop: starting from depth 1 after a header line,
append each line while the running count stays positive; the line on which
it reaches zero (the closing brace) is consumed but not appended. -/
def collectBody : List String → Int → (List String × List String)
  | [], _ => ([], [])
  | line :: rest, depth =>
    let d := depth + braceDelta line
    if d > 0 then
      let (body, rem) := collectBody rest d
      (line :: body, rem)
    else ([], rest)

theorem collectBody_rem_length (lines : List String) :
    ∀ d : Int, (collectBody lines d).2.length ≤ lines.length := by
  induction lines with
  | nil => intro d; simp [collectBody]
  | cons line rest ih =>
    intro d
    unfold collectBody
    rcases Bool.eq_false_or_eq_true (decide (d + braceDelta line > 0)) with ht | hf
    · rw [if_pos (by simpa using ht)]
      have := ih (d + braceDelta line)
      simp only [List.length_cons]
      omega
    · rw [if_neg (by simpa using hf)]
      simp

/-- The `on EVENT:target:{` / `new COMMAND:target:{` header parse: two
colons and an opening brace after the second; the event and target parts
have leading *spaces* (only `' '`) skipped, and no trailing trim. -/
def parse_rule_header (l : List Char) : Option (List Char × List Char) :=
  match split_at_char l ':' with
  | none => none
  | some (evRaw, afterC1) =>
    match split_at_char afterC1 ':' with
    | none => none
    | some (tgRaw, afterC2) =>
      if (after_char afterC2 '{').isSome then
        some (evRaw.dropWhile (fun c => c = ' '), tgRaw.dropWhile (fun c => c = ' '))
      else none

/-- Whether a `function ` line reaches its block-capture loop: a `$`-name
whose scan stops at a `'('` or whitespace, then `'('`, `')'` and `'{'`
found in order; any earlier failure abandons the line without consuming
the block. -/
def function_line_consumes_block (l : List Char) : Bool :=
  match l.dropWhile isspace_c with
  | '$' :: nameRest =>
    let nameEnd := nameRest.dropWhile (fun c => !(c = '(' || isspace_c c))
    if nameEnd.isEmpty then false
    else
      match after_char nameEnd '(' with
      | none => false
      | some afterParen =>
        match after_char afterParen ')' with
        | none => false
        | some afterParams => (after_char afterParams '{').isSome
  | _ => false

/-- One rule-list pass of `parse_script_content` over the physical lines:
skip blanks and `//` comments, consume `function` bodies (they go to the
global function table, not the rule list), build a rule for each well-formed
`on` header — with `parse_event_type`'s result stored whatever it is — and
for each `new` header whose event part is `COMMAND`. -/
def parse_script_lines : Nat → List String → List Rule
  | 0, _ => []
  | _, [] => []
  | fuel + 1, line :: rest =>
    let l := line.toList.dropWhile (fun c => c = ' ' || c = '\t')
    if l.isEmpty || l.take 2 = ['/', '/'] then parse_script_lines fuel rest
    else if l.take 9 = ("function ".toList) then
      if function_line_consumes_block (l.drop 9) then
        parse_script_lines fuel (collectBody rest 1).2
      else parse_script_lines fuel rest
    else if l.take 3 = ("on ".toList) then
      match parse_rule_header (l.drop 3) with
      | some (ev, tg) =>
        let captured := collectBody rest 1
        ⟨parse_event_type (String.mk ev), String.mk tg,
          String.join (captured.1.map (fun s => s ++ "\n"))⟩ :: parse_script_lines fuel captured.2
      | none => parse_script_lines fuel rest
    else if l.take 4 = ("new ".toList) then
      match parse_rule_header (l.drop 4) with
      | some (ev, tg) =>
        if strcaseeq (String.mk ev) "COMMAND" then
          let captured := collectBody rest 1
          ⟨.US_EVENT_COMMAND_NEW, String.mk tg,
            String.join (captured.1.map (fun s => s ++ "\n"))⟩ :: parse_script_lines fuel captured.2
        else parse_script_lines fuel rest
      | none => parse_script_lines fuel rest
    else parse_script_lines fuel rest

/-- Split on `'\n'`, keeping empty segments (dropped below as `strtok_r`
does). -/
def split_lines_aux : List Char → List Char → List String
  | [], acc => [String.mk acc.reverse]
  | c :: rest, acc =>
    if c = '\n' then String.mk acc.reverse :: split_lines_aux rest []
    else split_lines_aux rest (c :: acc)

/-- `strtok_r(content, "\n", …)` iteration: the non-empty `'\n'`-separated
segments of the file text. -/
def strtok_lines (content : String) : List String :=
  (split_lines_aux content.toList []).filter (fun s => ¬(s = ""))

/-- `parse_script_content`: split the file text into `strtok_r` lines
(empty segments skipped) and run the rule-list pass.  Every step of the
pass consumes at least one line (`collectBody` never grows its input), so
`length + 1` fuel reproduces the C loop exactly. -/
def parse_script_content (content : String) : List Rule :=
  parse_script_lines ((strtok_lines content).length + 1) (strtok_lines content)

/-- C9 (counterexample): the claim says a rule with an unrecognized event
name "does not appear in the rule list returned by `parse_script_content`".
It does appear: `parse_script_content` stores `parse_event_type`'s result
unconditionally, so `on BOGUS:*:{ }` yields a rule list containing one rule
whose event is the sentinel `US_EVENT_MAX`. -/
theorem unrecognized_event_rule_is_kept :
    parse_script_content "on BOGUS:*:\x7b\n\x7d"
      = [⟨.US_EVENT_MAX, "*", ""⟩] := by
  rfl

/-- C9 (amended): `parse_event_type` maps every name outside the recognized
table to the sentinel `US_EVENT_MAX`; the rule is *kept* in the rule list
returned by `parse_script_content` with that sentinel event; and since the
dispatch loop fires a rule only when `rule->event` equals the (concrete,
never-`US_EVENT_MAX`) host event, such a rule never fires for any host
event. -/
theorem unrecognized_event_never_fires (s : String)
    (hunrec : ∀ p ∈ recognized_events, strcaseeq s p.1 = false) :
    parse_event_type s = .US_EVENT_MAX
    ∧ parse_script_content "on BOGUS:*:\x7b\n\x7d" = [⟨.US_EVENT_MAX, "*", ""⟩]
    ∧ (∀ (e : EventType) (target actions : String), e ≠ .US_EVENT_MAX →
        rule_matches_event ⟨.US_EVENT_MAX, target, actions⟩ e = false) := by
  refine ⟨?_, rfl, ?_⟩
  · unfold parse_event_type
    rw [List.find?_eq_none.2 (fun p hp => by rw [hunrec p hp]; decide)]
  · intro e target actions hne
    simp only [rule_matches_event, beq_iff_eq]
    exact decide_eq_false (fun hcontra => hne hcontra.symm)

/-- Witness for C9 (amended) at the event name `BOGUS` and host event
`JOIN`. -/
theorem unrecognized_event_never_fires_witness :
    parse_event_type "BOGUS" = .US_EVENT_MAX
    ∧ rule_matches_event ⟨.US_EVENT_MAX, "*", ""⟩ .US_EVENT_JOIN = false :=
  ⟨(unrecognized_event_never_fires "BOGUS" (by decide)).1,
   (unrecognized_event_never_fires "BOGUS" (by decide)).2.2 .US_EVENT_JOIN "*" "" (by decide)⟩

/-! ## Script loading and config reload (src/obbyscript.c:
`obbyscript_configrun` lines 554-597, `load_script_file` lines 599-663)

The filesystem is an opaque map from path to (`ftell` size, read content);
`none` models an unreadable file (`fopen` failure; the short-`fread` reject
cannot arise in a model where size and content come from the same map). -/

/-- Size and content of a readable file. -/
structure FileData where
  size : Nat
  content : String

/-- An `ObbyScriptFile` in the active script set. -/
structure ScriptFile where
  filename : String
  rules : List Rule
  deriving Repr, DecidableEq

/-- `load_script_file`: reject an unreadable file, a file larger than 1MB,
and a file whose text parses to zero rules; otherwise return the loaded
file. -/
def load_script_file (fs : String → Option FileData) (filename : String) :
    Option ScriptFile :=
  match fs filename with
  | none => none
  | some fd =>
    if fd.size > 1024 * 1024 then none
    else
      if (parse_script_content fd.content).isEmpty then none
      else some ⟨filename, parse_script_content fd.content⟩

/-- One step of the `configrun` load loop: a successful load is prepended
(`file->next = script_files; script_files = file`), a failed one skipped. -/
def configrun_step (fs : String → Option FileData) (acc : List ScriptFile)
    (path : String) : List ScriptFile :=
  match load_script_file fs path with
  | some f => f :: acc
  | none => acc

/-- `obbyscript_configrun` for a matched `scripts` block: free the entire
previous script-file list (`_old`), then load each configured path in
order, prepending each success to the fresh active list. -/
def obbyscript_configrun (fs : String → Option FileData) (items : List String)
    (_old : List ScriptFile) : List ScriptFile :=
  items.foldl (configrun_step fs) []

theorem configrun_foldl (fs : String → Option FileData) (l : List String) :
    ∀ acc : List ScriptFile,
      l.foldl (configrun_step fs) acc
        = (l.filterMap (load_script_file fs)).reverse ++ acc := by
  induction l with
  | nil => intro acc; simp
  | cons x rest ih =>
    intro acc
    simp only [List.foldl_cons, List.filterMap_cons]
    cases hg : load_script_file fs x with
    | none =>
      rw [show configrun_step fs acc x = acc from by unfold configrun_step; rw [hg], ih]
    | some b =>
      rw [show configrun_step fs acc x = b :: acc from by unfold configrun_step; rw [hg], ih]
      simp

/-- C7: `load_script_file` rejects exactly the unreadable, oversize (more
than 1MB) and zero-rule files; `obbyscript_configrun` frees the whole
previous list before loading, so its result does not depend on the previous
active set, and after a reload the active set holds exactly the files that
loaded successfully from that reload's configuration (in particular a
rejected file's previous rules are gone). -/
theorem config_reload_replaces_scripts (fs : String → Option FileData)
    (items : List String) (old old2 : List ScriptFile) :
    (∀ path, load_script_file fs path = none ↔
        (fs path = none
          ∨ (∃ fd, fs path = some fd ∧ 1024 * 1024 < fd.size)
          ∨ (∃ fd, fs path = some fd ∧ fd.size ≤ 1024 * 1024
              ∧ parse_script_content fd.content = [])))
    ∧ obbyscript_configrun fs items old = obbyscript_configrun fs items old2
    ∧ (∀ f, f ∈ obbyscript_configrun fs items old ↔
        ∃ path ∈ items, load_script_file fs path = some f) := by
  refine ⟨?_, rfl, ?_⟩
  · intro path
    cases hfs : fs path with
    | none => simp [load_script_file, hfs]
    | some fd =>
      rcases Nat.lt_or_ge (1024 * 1024) fd.size with hbig | hsmall
      · simp [load_script_file, hfs, hbig]
      · rcases Bool.eq_false_or_eq_true (parse_script_content fd.content).isEmpty with ht | hf
        · have hparse : parse_script_content fd.content = [] := List.isEmpty_iff.1 ht
          simp [load_script_file, hfs, hparse,
            show ¬(fd.size > 1024 * 1024) from by omega, hsmall]
        · have hne : parse_script_content fd.content ≠ [] := by
            intro h
            rw [h] at hf
            exact absurd hf (by decide)
          simp [load_script_file, hfs, hne,
            show ¬(fd.size > 1024 * 1024) from by omega]
  · intro f
    unfold obbyscript_configrun
    rw [configrun_foldl fs items []]
    simp only [List.append_nil, List.mem_reverse, List.mem_filterMap]

/-! ## Loop execution and the iteration cap (src/obbyscript.c:
`US_ACTION_WHILE` lines 4282-4403, `US_ACTION_FOR` (C-style) lines
4405-4650)

Both loops run `while (loop_safety_counter < MAX_LOOP_ITERATIONS)`: each
pass re-evaluates the condition, runs the body (whose outcome can be
normal, `break`, `continue`, or a `__return__`), applies the increment (For
only, skipped on `continue`), and bumps the counter.  The condition, body
and increment are the embedding's parameters — the cap holds for *every*
loop regardless of them.  Exhausting the counter abandons the loop and
logs a warning (`WHILE_LOOP_LIMIT` / `FOR_LOOP_LIMIT`), recorded here as
`cap_warning`; execution continues normally afterwards (not a fatal
error — the evaluator is a total function). -/

/-- Outcome of one body execution: fall through, `US_ACTION_BREAK`,
`US_ACTION_CONTINUE`, or a `__return__` observed after a nested action. -/
inductive LoopSignal where
  | normal | brk | cont | ret
  deriving Repr, DecidableEq

/-- Result of a loop: final state, number of body executions, whether the
iteration-cap warning was logged, and whether a `__return__` unwound. -/
structure LoopResult (σ : Type) where
  state : σ
  body_execs : Nat
  cap_warning : Bool
  returned : Bool

/-- `MAX_LOOP_ITERATIONS`. -/
def MAX_LOOP_ITERATIONS : Nat := 10000

/-- The While loop, with `fuel = MAX_LOOP_ITERATIONS - loop_safety_counter`
(the C counter bumps once per completed pass; `break` and `return` leave it
untouched, which never matters for the cap since they exit the loop). -/
def while_loop_aux {σ : Type} (cond : σ → Bool) (body : σ → σ × LoopSignal) :
    Nat → σ → Nat → LoopResult σ
  | 0, st, execs => ⟨st, execs, true, false⟩
  | fuel + 1, st, execs =>
    if cond st then
      match body st with
      | (st', .brk) => ⟨st', execs + 1, false, false⟩
      | (st', .ret) => ⟨st', execs + 1, false, true⟩
      | (st', .cont) => while_loop_aux cond body fuel st' (execs + 1)
      | (st', .normal) => while_loop_aux cond body fuel st' (execs + 1)
    else ⟨st, execs, false, false⟩

/-- `US_ACTION_WHILE` execution. -/
def execute_while_loop {σ : Type} (cond : σ → Bool) (body : σ → σ × LoopSignal)
    (st : σ) : LoopResult σ :=
  while_loop_aux cond body MAX_LOOP_ITERATIONS st 0

/-- The C-style For loop: like While, plus the increment, applied after a
normal body pass and skipped on `continue`. -/
def for_loop_aux {σ : Type} (cond : σ → Bool) (body : σ → σ × LoopSignal)
    (incr : σ → σ) : Nat → σ → Nat → LoopResult σ
  | 0, st, execs => ⟨st, execs, true, false⟩
  | fuel + 1, st, execs =>
    if cond st then
      match body st with
      | (st', .brk) => ⟨st', execs + 1, false, false⟩
      | (st', .ret) => ⟨st', execs + 1, false, true⟩
      | (st', .cont) => for_loop_aux cond body incr fuel st' (execs + 1)
      | (st', .normal) => for_loop_aux cond body incr fuel (incr st') (execs + 1)
    else ⟨st, execs, false, false⟩

/-- `US_ACTION_FOR` (C-style) execution: run the `loop_init` assignment,
then loop. -/
def execute_for_loop {σ : Type} (init : σ → σ) (cond : σ → Bool)
    (body : σ → σ × LoopSignal) (incr : σ → σ) (st : σ) : LoopResult σ :=
  for_loop_aux cond body incr MAX_LOOP_ITERATIONS (init st) 0

theorem while_loop_aux_execs_le {σ : Type} (cond : σ → Bool) (body : σ → σ × LoopSignal) :
    ∀ (fuel : Nat) (st : σ) (execs : Nat),
      (while_loop_aux cond body fuel st execs).body_execs ≤ execs + fuel := by
  intro fuel
  induction fuel with
  | zero => intro st execs; simp [while_loop_aux]
  | succ fuel ih =>
    intro st execs
    unfold while_loop_aux
    rcases Bool.eq_false_or_eq_true (cond st) with ht | hf
    · rw [if_pos ht]
      rcases hb : body st with ⟨st', sig⟩
      cases sig
      · have := ih st' (execs + 1)
        simp only []
        omega
      · simp only []
        omega
      · have := ih st' (execs + 1)
        simp only []
        omega
      · simp only []
        omega
    · rw [if_neg (by simp [hf])]
      dsimp only
      omega

theorem for_loop_aux_execs_le {σ : Type} (cond : σ → Bool) (body : σ → σ × LoopSignal)
    (incr : σ → σ) :
    ∀ (fuel : Nat) (st : σ) (execs : Nat),
      (for_loop_aux cond body incr fuel st execs).body_execs ≤ execs + fuel := by
  intro fuel
  induction fuel with
  | zero => intro st execs; simp [for_loop_aux]
  | succ fuel ih =>
    intro st execs
    unfold for_loop_aux
    rcases Bool.eq_false_or_eq_true (cond st) with ht | hf
    · rw [if_pos ht]
      rcases hb : body st with ⟨st', sig⟩
      cases sig
      · have := ih (incr st') (execs + 1)
        simp only []
        omega
      · simp only []
        omega
      · have := ih st' (execs + 1)
        simp only []
        omega
      · simp only []
        omega
    · rw [if_neg (by simp [hf])]
      dsimp only
      omega

theorem for_loop_aux_counts {σ : Type} (cond : σ → Bool) (incr : σ → σ)
    (P : Nat → σ → Prop)
    (hP : ∀ fuel st, P (fuel + 1) st → cond st = true)
    (hstep : ∀ fuel st, P (fuel + 1) st → P fuel (incr st)) :
    ∀ (fuel : Nat) (st : σ) (execs : Nat), P fuel st →
      (for_loop_aux cond (fun s => (s, .normal)) incr fuel st execs).body_execs = execs + fuel
      ∧ (for_loop_aux cond (fun s => (s, .normal)) incr fuel st execs).cap_warning = true := by
  intro fuel
  induction fuel with
  | zero => intro st execs _; simp [for_loop_aux]
  | succ fuel ih =>
    intro st execs hPst
    unfold for_loop_aux
    rw [if_pos (hP fuel st hPst)]
    have := ih (incr st) (execs + 1) (hstep fuel st hPst)
    constructor
    · dsimp only
      rw [this.1]
      omega
    · dsimp only
      exact this.2

/-! The specification's loop-termination example,
`for (var %i = 1; %i != 1000000000; %i++) { }`, as the evaluator executes
it: `loop_init` runs `set_variable(global_scope, "%i", "1", 0)`; the
condition is the legacy `Condition {"%i", "!=", "1000000000"}`, whose
generic `!=` branch evaluates both sides through `evaluate_condition_value`
(a user variable becomes its stored value, an unknown variable stays as
literal text, a plain numeral stays itself), normalizes the `$true` /
`$false` / `$null` literals, and compares with `strcmp`; the `%i++`
increment reads the variable, applies C `atoi`, adds one, renders with
`snprintf("%d")` and stores back; the body `{ }` is empty. -/

/-- The `$true`/`$false`/`$null` normalization both sides of `==`/`!=`
receive in `evaluate_condition`. -/
def normalize_cmp (v : List Char) : List Char :=
  if v = "$true".toList then "true".toList
  else if v = "$false".toList then "false".toList
  else if v = "$null".toList then "__NULL__".toList
  else v

/-- Evaluation of the example's loop condition `%i != 1000000000`. -/
def for_example_cond (sc : Scope) : Bool :=
  let var_value :=
    match get_variable sc ['%', 'i'] with
    | some v => v
    | none => ['%', 'i']
  decide (¬(normalize_cmp var_value = normalize_cmp "1000000000".toList))

/-- The example's `loop_init`, `var %i = 1`. -/
def for_example_init (sc : Scope) : Scope :=
  set_variable sc ['%', 'i'] (some ['1']) false

/-- The example's `loop_increment`, `%i++`: read, `atoi`, add one, render,
store; a missing variable leaves the scope unchanged. -/
def for_example_incr (sc : Scope) : Scope :=
  match get_variable sc ['%', 'i'] with
  | some v => set_variable sc ['%', 'i'] (some (intToDecimal (c_atoi v + 1))) false
  | none => sc

/-- The global scope while the example runs: one variable `i` holding the
decimal rendering of `m`. -/
def for_example_scope (m : Nat) : Scope :=
  [[⟨['i'], .string, some (natToDigits m), none, none, false⟩]]

theorem for_example_scope_get (m : Nat) :
    get_variable (for_example_scope m) ['%', 'i'] = some (natToDigits m) := rfl

theorem for_example_scope_set (m : Nat) (y : List Char) :
    set_variable (for_example_scope m) ['%', 'i'] (some y) false
      = [[⟨['i'], .string, some y, none, none, false⟩]] := rfl

theorem natToDigits_ne_bignum (m : Nat) (hm : m ≤ 10000) :
    natToDigits m ≠ "1000000000".toList := by
  intro h
  have hfold := foldDigits_zero_natToDigits m
  rw [h] at hfold
  have hval : foldDigits 0 "1000000000".toList = (1000000000 : Int) := by decide
  rw [hval] at hfold
  omega

theorem normalize_cmp_digits (v : List Char) (hd : ∀ c ∈ v, isdigit_c c = true) :
    normalize_cmp v = v := by
  have h1 : ¬(v = "$true".toList) := by
    intro h; subst h; exact absurd (hd '$' (by decide)) (by decide)
  have h2 : ¬(v = "$false".toList) := by
    intro h; subst h; exact absurd (hd '$' (by decide)) (by decide)
  have h3 : ¬(v = "$null".toList) := by
    intro h; subst h; exact absurd (hd '$' (by decide)) (by decide)
  unfold normalize_cmp
  rw [if_neg h1, if_neg h2, if_neg h3]

theorem for_example_cond_true (m : Nat) (hm : m ≤ 10000) :
    for_example_cond (for_example_scope m) = true := by
  unfold for_example_cond
  rw [for_example_scope_get]
  dsimp only
  rw [normalize_cmp_digits _ (natToDigits_all_digits m),
    show normalize_cmp "1000000000".toList = "1000000000".toList from rfl]
  exact decide_eq_true (natToDigits_ne_bignum m hm)

theorem for_example_incr_scope (m : Nat) :
    for_example_incr (for_example_scope m) = for_example_scope (m + 1) := by
  unfold for_example_incr
  rw [for_example_scope_get]
  dsimp only
  rw [c_atoi_natToDigits m]
  have hint : intToDecimal ((m : Int) + 1) = natToDigits (m + 1) := by
    unfold intToDecimal
    rw [if_neg (by omega)]
    exact congrArg natToDigits (by omega)
  rw [hint, for_example_scope_set]
  rfl

/-- C2: every While loop and every C-style For loop executes its body at
most 10,000 times (`MAX_LOOP_ITERATIONS`), whatever its condition, body and
increment do; and the specification's example
`for (var %i = 1; %i != 1000000000; %i++) { }` executes its (empty) body
exactly 10,000 times, after which the loop is abandoned with the logged
iteration-cap warning (the evaluator is a total function — not a fatal
error). -/
theorem loop_iteration_cap :
    (∀ (σ : Type) (cond : σ → Bool) (body : σ → σ × LoopSignal) (st : σ),
        (execute_while_loop cond body st).body_execs ≤ 10000)
    ∧ (∀ (σ : Type) (init : σ → σ) (cond : σ → Bool) (body : σ → σ × LoopSignal)
          (incr : σ → σ) (st : σ),
        (execute_for_loop init cond body incr st).body_execs ≤ 10000)
    ∧ (execute_for_loop for_example_init for_example_cond (fun sc => (sc, .normal))
        for_example_incr [[]]).body_execs = 10000
    ∧ (execute_for_loop for_example_init for_example_cond (fun sc => (sc, .normal))
        for_example_incr [[]]).cap_warning = true := by
  have hmain :
      (for_loop_aux for_example_cond (fun sc => (sc, .normal)) for_example_incr
          10000 (for_example_scope 1) 0).body_execs = 10000
      ∧ (for_loop_aux for_example_cond (fun sc => (sc, .normal)) for_example_incr
          10000 (for_example_scope 1) 0).cap_warning = true := by
    have h := for_loop_aux_counts for_example_cond for_example_incr
      (fun fuel sc => fuel ≤ 10000 ∧ sc = for_example_scope (10001 - fuel))
      (fun fuel st hPst => by
        rw [hPst.2]
        exact for_example_cond_true (10001 - (fuel + 1)) (by omega))
      (fun fuel st hPst => by
        refine ⟨by omega, ?_⟩
        rw [hPst.2, for_example_incr_scope]
        congr 1
        omega)
      10000 (for_example_scope 1) 0 ⟨by omega, by norm_num⟩
    exact ⟨by rw [h.1], h.2⟩
  refine ⟨?_, ?_, ?_, ?_⟩
  · intro σ cond body st
    have := while_loop_aux_execs_le cond body MAX_LOOP_ITERATIONS st 0
    unfold execute_while_loop
    unfold MAX_LOOP_ITERATIONS at this ⊢
    omega
  · intro σ init cond body incr st
    have := for_loop_aux_execs_le cond body incr MAX_LOOP_ITERATIONS (init st) 0
    unfold execute_for_loop
    unfold MAX_LOOP_ITERATIONS at this ⊢
    omega
  · unfold execute_for_loop MAX_LOOP_ITERATIONS
    have hinit : for_example_init [[]] = for_example_scope 1 := by
      unfold for_example_init for_example_scope
      rw [show natToDigits 1 = ['1'] from by rw [natToDigits]; rfl]
      rfl
    rw [hinit]
    exact hmain.1
  · unfold execute_for_loop MAX_LOOP_ITERATIONS
    have hinit : for_example_init [[]] = for_example_scope 1 := by
      unfold for_example_init for_example_scope
      rw [show natToDigits 1 = ['1'] from by rw [natToDigits]; rfl]
      rfl
    rw [hinit]
    exact hmain.2

end ObbyScript
